import Mathlib

/-!
Verification of vedranvuk/config: the Default engine, the Limit engine, the
tag parser (sanitizer.go) and the Interface wrapper protocol (interface.go).

The Go code walks arbitrary structs with reflection.  We embed the value
universe of the leaf kinds the engines act on (String, Ints, Uints, Bool),
the tag parser, the leaf-level default/limit logic (`setDefaults`,
`setLimits`), a flat record of tagged fields for the per-field traversal
(`traverse`, struct case), and the Interface walker over a tree of nodes.

External collaborators (`reflectex.StringToValue`, `reflectex.CompareValues`,
`typeregistry`) are not part of this repository; they are modelled from the
spec's Scalar Codec Bridge and Dynamic-Type Registry contracts, as noted on
their definitions.
-/

namespace Config

/-- The kind of a scalar leaf value (reflect.Kind restricted to the kinds the
engines handle: strings, signed/unsigned integers collapsed to `int`, bools). -/
inductive Ty where
  | int
  | str
  | bool
deriving DecidableEq, Repr

/-- A scalar leaf value of a config field. Go machine integers are modelled as
unbounded `Int`; the claims under verification only involve values where
overflow cannot occur. -/
inductive Val where
  | vInt (i : Int)
  | vStr (s : String)
  | vBool (b : Bool)
deriving DecidableEq, Repr

/-- The runtime kind of a value (`reflect.Value.Kind`). -/
def Val.ty : Val → Ty
  | .vInt _ => .int
  | .vStr _ => .str
  | .vBool _ => .bool

/-- `reflect.Zero(t)` for the modelled scalar kinds. -/
def zeroOf : Ty → Val
  | .int => .vInt 0
  | .str => .vStr ""
  | .bool => .vBool false

/-- `reflect.Value.IsZero` for the modelled scalar kinds. -/
def Val.isZero (v : Val) : Bool :=
  v = zeroOf v.ty

/-- Splitting a character list on a separator character.  Models Go
`strings.Split(s, sep)` for the one-character separators used by the package
(";", "=", ",", ":"): `splitCh c [] = [[]]` just as `strings.Split("", sep)`
is `[""]`, and adjacent separators yield empty segments. -/
def splitCh (sep : Char) : List Char → List (List Char)
  | [] => [[]]
  | c :: rest =>
    if c = sep then [] :: splitCh sep rest
    else
      match splitCh sep rest with
      | h :: t => (c :: h) :: t
      | [] => [[c]]

/-- Decimal digit run to a number; `none` on a non-digit or on the empty run.
Helper for the integer parser. -/
def digitsToNat : List Char → Nat → Option Nat
  | [], acc => some acc
  | c :: cs, acc =>
    if c.isDigit then digitsToNat cs (acc * 10 + (c.toNat - 48))
    else none

/-- Non-empty digit run to a number. -/
def parseNatL : List Char → Option Nat
  | [] => none
  | l => digitsToNat l 0

/-- Modelled from the spec: the Scalar Codec Bridge's integer parsing
(`reflectex.StringToValue` into an integer kind, i.e. `strconv.ParseInt`):
an optional sign followed by a non-empty run of decimal digits.  Overflow of
machine widths is not modelled. -/
def parseInt (s : String) : Option Int :=
  match s.data with
  | '-' :: rest => (parseNatL rest).map (fun n => -(n : Int))
  | '+' :: rest => (parseNatL rest).map (fun n => (n : Int))
  | l => (parseNatL l).map (fun n => (n : Int))

/-- Modelled from the spec: boolean literal parsing (`strconv.ParseBool`
accepted forms). -/
def parseBool (s : String) : Option Bool :=
  if s = "1" ∨ s = "t" ∨ s = "T" ∨ s = "true" ∨ s = "TRUE" ∨ s = "True" then some true
  else if s = "0" ∨ s = "f" ∨ s = "F" ∨ s = "false" ∨ s = "FALSE" ∨ s = "False" then some false
  else none

/-- Modelled from the spec: `reflectex.StringToValue` — parse a literal into
the target kind (`parse(literal, targetKind) -> value | ParseError`).
A string target always succeeds with the literal itself. -/
def stringToValue : Ty → String → Option Val
  | .str, s => some (.vStr s)
  | .int, s => (parseInt s).map .vInt
  | .bool, s => (parseBool s).map .vBool

/-- Lexicographic comparison of character lists (by code point).  Helper for
the modelled `reflectex.CompareValues` on strings. -/
def strCmp : List Char → List Char → Ordering
  | [], [] => .eq
  | [], _ :: _ => .lt
  | _ :: _, [] => .gt
  | a :: as, b :: bs =>
    if a.toNat < b.toNat then .lt
    else if b.toNat < a.toNat then .gt
    else strCmp as bs

/-- Modelled from the spec: `reflectex.CompareValues` — ordered comparison of
same-kind values (`compare(a, b) -> {-1,0,1}`, here `Ordering`): numeric for
integers, lexicographic for strings.  The result on mismatched kinds is
irrelevant (the engines always compare a field against a value parsed into
the field's own type). -/
def valCompare : Val → Val → Ordering
  | .vInt a, .vInt b => if a < b then .lt else if b < a then .gt else .eq
  | .vStr a, .vStr b => strCmp a.data b.data
  | .vBool a, .vBool b => if a = b then .eq else if a = false then .lt else .gt
  | _, _ => .lt

/-- A tag map: key/value pairs with newest entry first; `tmFind` returns the
newest binding, so a later duplicate key overwrites an earlier one exactly as
assignment into the Go `map[string]string` does. -/
abbrev Tagmap := List (String × String)

/-- The loop body of `parseTagmap` (sanitizer.go): skip an empty segment,
split the segment on "=", and keep it only when it yields exactly a key and a
value (Go: `len(kv) != 2` segments are skipped). -/
def tagStep (m : Tagmap) (s : List Char) : Tagmap :=
  if s = [] then m
  else
    match splitCh '=' s with
    | [k, v] => (String.mk k, String.mk v) :: m
    | _ => m

/-- `parseTagmap` (sanitizer.go): split the tag on ";" and fold the segments
into the map. -/
def parseTagmap (tag : String) : Tagmap :=
  (splitCh ';' tag.data).foldl tagStep []

/-- Lookup in a tag map (Go map indexing `tm[key]`, with `none` for a missing
key). -/
def tmFind (m : Tagmap) (k : String) : Option String :=
  (m.find? (fun p => p.1 = k)).map (·.2)

/-- The per-field warnings collected into the aggregate `ErrWarning`
(`warnings.Extra(...)` calls in sanitizer.go). `invalidValue` stands for the
raw `reflectex.StringToValue` error appended by `setDefaults`. -/
inductive Warning where
  | noTag (name : String)
  | noDefault (name : String)
  | invalidNil (name : String)
  | invalidDefault (name : String)
  | noRange (name : String)
  | invalidRange (name : String)
  | invalidValue (name : String)
deriving DecidableEq, Repr

/-- The tail of `setDefaults` (sanitizer.go): once `zero` is decided, skip a
non-empty field unless `reset`, otherwise assign the parsed default (a parse
failure is appended as a warning and leaves the field unmodified).  The
`encoding.TextUnmarshaler` branch is omitted: none of the modelled scalar
kinds implements it. -/
def setDefaultsApply (name defval : String) (reset zero : Bool) (v : Val) :
    Val × List Warning :=
  if !zero && !reset then (v, [])
  else
    match stringToValue v.ty defval with
    | none => (v, [.invalidValue name])
    | some d => (d, [])

/-- `setDefaults` (sanitizer.go, the leaf case of `traverse`): `zero` starts
as `v.IsZero()`; a missing `default` key warns and returns; a `nil` key is
parsed into the field's type (warning and return on failure) and equality
with the field also marks the field `zero`; then the default is applied. -/
def setDefaultsLeaf (name : String) (tags : Tagmap) (reset : Bool) (v : Val) :
    Val × List Warning :=
  let zero := v.isZero
  match tmFind tags "default" with
  | none => (v, [.noDefault name])
  | some defval =>
    match tmFind tags "nil" with
    | some nilval =>
      match stringToValue v.ty nilval with
      | none => (v, [.invalidNil name])
      | some nv =>
        setDefaultsApply name defval reset (zero || (valCompare v nv == .eq)) v
    | none => setDefaultsApply name defval reset zero v

/-- Result of scanning the choice list in `setLimits`: a parse failure aborts
the field, a comparison hit breaks out of the loop. -/
inductive ChoiceRes where
  | err
  | matched
  | unmatched
deriving DecidableEq, Repr

/-- The choice-scanning loop of `setLimits` (sanitizer.go): parse each choice
into the field's type (abort on failure), stop at the first match. -/
def matchChoice (v : Val) : List String → ChoiceRes
  | [] => .unmatched
  | s :: rest =>
    match stringToValue v.ty s with
    | none => .err
    | some cv => if valCompare v cv == .eq then .matched else matchChoice v rest

/-- One bound check of `setLimits` (sanitizer.go): `bad` is `.lt` for the
minimum and `.gt` for the maximum.  An empty bound is skipped.  When the
bound is violated: clamp sets the field to the bound; otherwise the default
is assigned, where a missing `default` key first zeroes the field and the
(then empty) default literal is still handed to the parser, whose failure is
a warning that aborts the rest of the field's limit processing (`.error`). -/
def applyBound (name : String) (tags : Tagmap) (clamp : Bool) (bstr : String)
    (bad : Ordering) (v : Val) : Except (Val × Warning) Val :=
  if bstr = "" then .ok v
  else
    match stringToValue v.ty bstr with
    | none => .error (v, .invalidRange name)
    | some bv =>
      if valCompare v bv = bad then
        if clamp then .ok bv
        else
          match tmFind tags "default" with
          | some defval =>
            match stringToValue v.ty defval with
            | none => .error (v, .invalidRange name)
            | some d => .ok d
          | none =>
            let z := zeroOf v.ty
            match stringToValue z.ty "" with
            | none => .error (z, .invalidRange name)
            | some d => .ok d
      else .ok v

/-- `setLimits` (sanitizer.go): a missing `range` key warns; a range value
containing "," is a choice set — a match with `clamp` unset returns the field
untouched, otherwise (`clamp` set, or no match) `setDefaults` runs in reset
mode; a range value containing ":" must split into exactly two bounds, which
are enforced in order (minimum then maximum); any other range value does
nothing. -/
def setLimitsLeaf (name : String) (tags : Tagmap) (clamp : Bool) (v : Val) :
    Val × List Warning :=
  match tmFind tags "range" with
  | none => (v, [.noRange name])
  | some rng =>
    if rng.data.any (· = ',') then
      match matchChoice v ((splitCh ',' rng.data).map String.mk) with
      | .err => (v, [.invalidRange name])
      | .matched =>
        if clamp then setDefaultsLeaf name tags true v else (v, [])
      | .unmatched => setDefaultsLeaf name tags true v
    else if rng.data.any (· = ':') then
      match (splitCh ':' rng.data).map String.mk with
      | [s0, s1] =>
        match applyBound name tags clamp s0 .lt v with
        | .error (v', w) => (v', [w])
        | .ok v' =>
          match applyBound name tags clamp s1 .gt v' with
          | .error (v'', w) => (v'', [w])
          | .ok v'' => (v'', [])
      | _ => (v, [.invalidRange name])
    else (v, [])

/-- A settable (exported) scalar struct field: its name, its `config` tag
(`none` when `Tag.Lookup` fails), and its current value. -/
structure SField where
  name : String
  tag : Option String
  val : Val
deriving DecidableEq, Repr

/-- One field step of `traverse` (sanitizer.go, struct case) under `Default`:
a missing tag warns `ErrNoTag` but traversal still continues into the field
with the tag map of the empty string, then the leaf branch runs
`setDefaults`. -/
def defaultField (reset : Bool) (f : SField) : SField × List Warning :=
  let tagW : List Warning := match f.tag with | none => [.noTag f.name] | some _ => []
  let r := setDefaultsLeaf f.name (parseTagmap (f.tag.getD "")) reset f.val
  ({ f with val := r.1 }, tagW ++ r.2)

/-- One field step of `traverse` under `Limit` (leaf branch runs
`setLimits`). -/
def limitField (clamp : Bool) (f : SField) : SField × List Warning :=
  let tagW : List Warning := match f.tag with | none => [.noTag f.name] | some _ => []
  let r := setLimitsLeaf f.name (parseTagmap (f.tag.getD "")) clamp f.val
  ({ f with val := r.1 }, tagW ++ r.2)

/-- `Default` (sanitizer.go) on a record of scalar fields: `traverse` visits
every field in order, collecting warnings. -/
def DefaultRec (reset : Bool) : List SField → List SField × List Warning
  | [] => ([], [])
  | f :: fs =>
    let r := defaultField reset f
    let rs := DefaultRec reset fs
    (r.1 :: rs.1, r.2 ++ rs.2)

/-- `Limit` (sanitizer.go) on a record of scalar fields. -/
def LimitRec (clamp : Bool) : List SField → List SField × List Warning
  | [] => ([], [])
  | f :: fs =>
    let r := limitField clamp f
    let rs := LimitRec clamp fs
    (r.1 :: rs.1, r.2 ++ rs.2)

/-- First-some choice on options (Go's "take this result, else fall back"). -/
def optOr {α : Type} (a b : Option α) : Option α :=
  match a with
  | some x => some x
  | none => b

/-- The Tag Parser contract in the spec's words (§4.1), restricted to a single
key lookup: among the ";"-segments that decompose into this key and a value,
the value of the last one wins (later duplicate keys overwrite earlier ones). -/
def tagSel (k : String) (s : List Char) : Option String :=
  match splitCh '=' s with
  | [k', v] => if String.mk k' = k then some (String.mk v) else none
  | _ => none

/-- Spec-side lookup for the Tag Parser (see `tagSel`). -/
def tagSpecLookup (tag k : String) : Option String :=
  ((splitCh ';' tag.data).filterMap (tagSel k)).getLast?

/-! ## The Interface wrapper protocol (interface.go) -/

/-- A Go runtime type as the Dynamic-Type Registry sees it: its long name
(`reflect.Type.String()`) and whether it is a pointer kind. -/
structure GoTy where
  name : String
  isPtr : Bool
deriving DecidableEq, Repr

/-- Abstract contents of a dynamic value: a pointer to contents, a zero
value, or opaque data. -/
inductive DContent where
  | ptrTo (inner : DContent)
  | zeroVal
  | data (s : String)
deriving DecidableEq, Repr

/-- A non-nil dynamic value held in an Interface's `Value` field: its runtime
type together with its (abstracted) contents. -/
structure Dyn where
  ty : GoTy
  content : DContent
deriving DecidableEq, Repr

/-- `typeregistry.GetLongTypeName(value)`: the long name of the value's
runtime type. -/
def Dyn.longName (d : Dyn) : String := d.ty.name

/-- Modelled from the spec: the Dynamic-Type Registry's state, a name → type
mapping (newest entry first). -/
abbrev Registry := List (String × GoTy)

/-- Modelled from the spec: `registry.GetType(name)` (`lookup(name) -> type |
NotFoundError`). -/
def regLookup (reg : Registry) (n : String) : Option GoTy :=
  (reg.find? (fun p => p.1 = n)).map (·.2)

/-- Modelled from the spec: `registry.RegisterNamed` combined with the
caller's handling in interface.go — a duplicate-name registration returns
`ErrDuplicateEntry`, which `registerInterfaceValue` swallows, leaving the
registry unchanged; a new name is inserted. -/
def registerNamed (reg : Registry) (n : String) (t : GoTy) : Registry :=
  if (regLookup reg n).isSome then reg else (n, t) :: reg

/-- The allocation done by `initializeInterfaceField`: for a registered
pointer type, a pointer to a freshly allocated zero pointee
(`reflect.New(nvt.Elem())`); otherwise the zero value directly
(`reflect.New(nvt).Elem()`). -/
def allocForDecode (t : GoTy) : Dyn :=
  if t.isPtr then ⟨t, .ptrTo .zeroVal⟩ else ⟨t, .zeroVal⟩

/-- A node of the config tree as the Interface walkers see it: an Interface
wrapper (`Type` name plus optional dynamic `Value`), a non-Interface struct,
a slice field (`fseq`), an array field (`farr`), a map field (`fmap`, values
in iteration order), a pointer, or any other kind.  Slices and arrays are
separate because their reflect addressability differs: a slice element is
reached through the slice's data pointer and is always addressable, while an
array element is addressable exactly when the array value itself is. -/
inductive INode where
  | iface (tn : String) (value : Option Dyn)
  | strukt (fields : List INode)
  | fseq (elems : List INode)
  | farr (elems : List INode)
  | fmap (elems : List INode)
  | ptr (inner : Option INode)
  | other

/-- Faults raised inside the register walk: `reflect.Value.Index` panics on a
map kind (it supports only Array, Slice and String), and
`reflect.Value.NumField` panics on a non-struct kind. -/
inductive RegErr where
  | panicMapIndex
  | panicNumField
deriving DecidableEq, Repr

/-- Outcome of one step of the initialize walk: success; the
`registry.GetType` lookup error, which is returned to the caller; or the
panic of the unguarded `Value.Set` calls in `initializeInterfaceField`
(interface.go:156/158) — `reflect.Value.Set` panics when the wrapper was
obtained from an unaddressable value, such as a map value from
`iter.Value()`.  Either non-ok outcome stops the walk at that point. -/
inductive IOut where
  | ok
  | errNotFound
  | panicSet
deriving DecidableEq, Repr

mutual

/-- The field loop of `initializeInterfaces` (interface.go): `addr` is the
addressability of the struct whose fields are visited (a field of an
addressable struct is addressable, a field of an unaddressable one is not);
results are `(fields, updated, out)`; a non-ok outcome aborts the loop,
leaving the remaining fields unprocessed. -/
def initFields (reg : Registry) (addr u : Bool) :
    List INode → List INode × Bool × IOut
  | [] => ([], u, .ok)
  | f :: fs =>
    match initFld reg addr u f with
    | (f', u', .ok) =>
      match initFields reg addr u' fs with
      | (fs', u'', out) => (f' :: fs', u'', out)
    | (f', u', out) => (f' :: fs, u', out)
termination_by l => (sizeOf l, 0)

/-- One iteration of the `initializeInterfaces` loop:
`fld := reflect.Indirect(root.Field(i))` — dereferencing a nil pointer
yields an invalid value, which no switch case matches, and dereferencing a
non-nil pointer yields a pointee that is addressable through the pointer. -/
def initFld (reg : Registry) (addr u : Bool) (f : INode) : INode × Bool × IOut :=
  match f with
  | .ptr (some inner) =>
    match initFldCore reg true u inner with
    | (n, u', out) => (.ptr (some n), u', out)
  | .ptr none => (f, u, .ok)
  | n => initFldCore reg addr u n
termination_by (sizeOf f, 2)

/-- The kind switch of `initializeInterfaces`: slice/array elements and map
values each go to `initializeInterfaceField` (the map branch correctly uses
`iter.Value()`); a struct kind goes to `initializeInterfaceField` directly;
every other kind is skipped.  Addressability of the visited children: a
slice element (`fld.Index(i)` on a slice) is always addressable, an array
element is addressable exactly when the array is, and a map value from
`iter.Value()` never is. -/
def initFldCore (reg : Registry) (addr u : Bool) (f : INode) :
    INode × Bool × IOut :=
  match f with
  | .fseq es =>
    match initElems reg true u es with
    | (es', u', out) => (.fseq es', u', out)
  | .farr es =>
    match initElems reg addr u es with
    | (es', u', out) => (.farr es', u', out)
  | .fmap es =>
    match initElems reg false u es with
    | (es', u', out) => (.fmap es', u', out)
  | .iface tn val => initIfaceElem reg addr u (.iface tn val)
  | .strukt fs => initIfaceElem reg addr u (.strukt fs)
  | _ => (f, u, .ok)
termination_by (sizeOf f, 1)

/-- The element loop shared by the slice/array and map branches of
`initializeInterfaces`; `addr` is the addressability of the elements; a
non-ok outcome aborts, leaving later elements unprocessed. -/
def initElems (reg : Registry) (addr u : Bool) :
    List INode → List INode × Bool × IOut
  | [] => ([], u, .ok)
  | e :: es =>
    match initIfaceElem reg addr u e with
    | (e', u', .ok) =>
      match initElems reg addr u' es with
      | (es', u'', out) => (e' :: es', u'', out)
    | (e', u', out) => (e' :: es, u', out)
termination_by l => (sizeOf l, 0)

/-- `initializeInterfaceField` (interface.go): dereference pointer chains (a
nil pointer dereferences to an invalid value: not a struct, skipped; a
non-nil one yields an addressable pointee); skip non-structs; recurse into a
non-Interface struct via `initializeInterfaces`; for an Interface wrapper:
an empty `Type` is skipped, an unregistered `Type` aborts with an error
before any write, and a registered `Type` writes a freshly allocated zero
value of the registered type into `Value` through an unguarded `Value.Set`
(interface.go:156/158) — which succeeds and records the update when the
wrapper is addressable, and panics when it is not (a wrapper reached as or
inside a non-pointer map value). -/
def initIfaceElem (reg : Registry) (addr u : Bool) (e : INode) :
    INode × Bool × IOut :=
  match e with
  | .ptr (some inner) =>
    match initIfaceElem reg true u inner with
    | (n, u', out) => (.ptr (some n), u', out)
  | .ptr none => (e, u, .ok)
  | .strukt fs =>
    match initFields reg addr u fs with
    | (fs', u', out) => (.strukt fs', u', out)
  | .iface tn val =>
    if tn = "" then (.iface tn val, u, .ok)
    else
      match regLookup reg tn with
      | none => (.iface tn val, u, .errNotFound)
      | some t =>
        if addr then (.iface tn (some (allocForDecode t)), true, .ok)
        else (.iface tn val, u, .panicSet)
  | _ => (e, u, .ok)
termination_by (sizeOf e, 0)

end

mutual

/-- The field loop of `registerInterfaces` (interface.go), threading the
registry; a fault aborts the walk. -/
def regFields (reg : Registry) : List INode → Except RegErr (List INode × Registry)
  | [] => .ok ([], reg)
  | f :: fs =>
    match regFld reg f with
    | .error err => .error err
    | .ok (f', reg') =>
      match regFields reg' fs with
      | .error err => .error err
      | .ok (fs', reg'') => .ok (f' :: fs', reg'')
termination_by l => (sizeOf l, 0)

/-- One iteration of the `registerInterfaces` loop:
`fld := reflect.Indirect(root.Field(i))`. -/
def regFld (reg : Registry) (f : INode) : Except RegErr (INode × Registry) :=
  match f with
  | .ptr (some inner) =>
    match regFldCore reg inner with
    | .error err => .error err
    | .ok (n, reg') => .ok (.ptr (some n), reg')
  | .ptr none => .ok (f, reg)
  | n => regFldCore reg n
termination_by (sizeOf f, 2)

/-- The kind switch of `registerInterfaces`: array/slice elements go to
`registerInterfaceValue`; the map branch calls `fld.Index(i)` on the map
itself, and `reflect.Value.Index` panics for a map kind, so any non-empty map
faults before its first value is processed (an empty map never enters the
loop); a struct kind goes to `registerInterfaceValue`; other kinds are
skipped. -/
def regFldCore (reg : Registry) (f : INode) : Except RegErr (INode × Registry) :=
  match f with
  | .fseq es =>
    match regElems reg es with
    | .error err => .error err
    | .ok (es', reg') => .ok (.fseq es', reg')
  | .farr es =>
    match regElems reg es with
    | .error err => .error err
    | .ok (es', reg') => .ok (.farr es', reg')
  | .fmap es =>
    match es with
    | [] => .ok (f, reg)
    | _ :: _ => .error .panicMapIndex
  | .iface tn val => regIfaceValue reg (.iface tn val)
  | .strukt fs => regIfaceValue reg (.strukt fs)
  | _ => .ok (f, reg)
termination_by (sizeOf f, 1)

/-- The element loop of the array/slice branch of `registerInterfaces`. -/
def regElems (reg : Registry) : List INode → Except RegErr (List INode × Registry)
  | [] => .ok ([], reg)
  | e :: es =>
    match regIfaceValue reg e with
    | .error err => .error err
    | .ok (e', reg') =>
      match regElems reg' es with
      | .error err => .error err
      | .ok (es', reg'') => .ok (e' :: es', reg'')
termination_by l => (sizeOf l, 0)

/-- `registerInterfaceValue` (interface.go): a non-Interface value is handed
back to `registerInterfaces`, whose `NumField` call panics when the value is
not a struct kind; an Interface with a nil `Value` or an already non-empty
`Type` is left untouched; otherwise the long type name of `Value` is derived,
written into `Type`, and registered under that name (duplicate-name
registration errors are swallowed). -/
def regIfaceValue (reg : Registry) (e : INode) : Except RegErr (INode × Registry) :=
  match e with
  | .iface tn val =>
    match val with
    | none => .ok (e, reg)
    | some d =>
      if tn = "" then
        .ok (.iface d.longName (some d), registerNamed reg d.longName d.ty)
      else .ok (e, reg)
  | .strukt fs =>
    match regFields reg fs with
    | .error err => .error err
    | .ok (fs', reg') => .ok (.strukt fs', reg')
  | _ => .error .panicNumField
termination_by (sizeOf e, 0)

end

/-- Outcomes of the public entry points other than register-walk faults. -/
inductive IErr where
  | invalidParam
  | typeNotRegistered
deriving DecidableEq, Repr

/-- A reflect panic surfaced by the initialize walk.  In Go the program
crashes instead of returning; the model surfaces the panic as a distinguished
outcome alongside the returned errors. -/
inductive InitPanic where
  | setUnaddressable
deriving DecidableEq, Repr

/-- `InitializeInterfaces` (interface.go): a nil config returns `(false, nil)`
before any validation; a non-struct returns `ErrInvalidParam`; otherwise the
walk runs over the pointee of the supplied pointer-to-struct — which is
addressable, hence `addr = true` at the root — returning the updated flag,
an error when a `Type` was not registered, or the surfaced `Value.Set`
panic. -/
def InitializeInterfacesGo (reg : Registry) :
    Option INode → Option INode × Bool × Option (IErr ⊕ InitPanic)
  | none => (none, false, none)
  | some root =>
    match root with
    | .strukt fs =>
      match initFields reg true false fs with
      | (fs', u, .ok) => (some (.strukt fs'), u, none)
      | (fs', u, .errNotFound) =>
        (some (.strukt fs'), u, some (.inl .typeNotRegistered))
      | (fs', u, .panicSet) =>
        (some (.strukt fs'), u, some (.inr .setUnaddressable))
    | r => (some r, false, some (.inl .invalidParam))

/-- `RegisterInterfaces` (interface.go): a nil config returns a nil error
before any validation; a non-struct returns `ErrInvalidParam`; otherwise the
register walk runs. -/
def RegisterInterfacesGo (reg : Registry) :
    Option INode → Option INode × Registry × Option (IErr ⊕ RegErr)
  | none => (none, reg, none)
  | some root =>
    match root with
    | .strukt fs =>
      match regFields reg fs with
      | .ok (fs', reg') => (some (.strukt fs'), reg', none)
      | .error err => (some (.strukt fs), reg, some (.inr err))
    | r => (some r, reg, some (.inl .invalidParam))

/-- Whether a node is a pointer node (the only kind `registerInterfaces`'
per-field dispatch treats specially). -/
def INode.isPtrNode : INode → Bool
  | .ptr _ => true
  | _ => false

/-- Registry inclusion by presence of names: every name registered in the
first registry is also registered in the second. -/
def RegSub (r1 r2 : Registry) : Prop :=
  ∀ n, (regLookup r1 n).isSome = true → (regLookup r2 n).isSome = true

section Lemmas

theorem optOr_assoc {α : Type} (a b c : Option α) :
    optOr (optOr a b) c = optOr a (optOr b c) := by
  cases a <;> rfl

theorem optOr_some {α : Type} (x : α) (b : Option α) :
    optOr (some x) b = some x := rfl

theorem optOr_none {α : Type} (b : Option α) : optOr none b = b := rfl

theorem getLast?_cons_ne_none {α : Type} (b : α) (l : List α) :
    (b :: l).getLast? ≠ none := by
  induction l generalizing b with
  | nil => simp
  | cons c l ih =>
    rw [List.getLast?_cons_cons]
    exact ih c

theorem getLast?_cons_optOr {α : Type} (a : α) (l : List α) :
    (a :: l).getLast? = optOr l.getLast? (some a) := by
  cases l with
  | nil => rfl
  | cons b l =>
    rw [List.getLast?_cons_cons]
    cases hl : (b :: l).getLast? with
    | none => exact absurd hl (getLast?_cons_ne_none b l)
    | some x => rfl

theorem tmFind_cons (k₀ v₀ : String) (m : Tagmap) (k : String) :
    tmFind ((k₀, v₀) :: m) k = if k₀ = k then some v₀ else tmFind m k := by
  by_cases h : k₀ = k <;> simp [tmFind, List.find?, h]

theorem tmFind_foldl_tagStep (segs : List (List Char)) (m : Tagmap) (k : String) :
    tmFind (segs.foldl tagStep m) k
      = optOr ((segs.filterMap (tagSel k)).getLast?) (tmFind m k) := by
  induction segs generalizing m with
  | nil => rfl
  | cons s segs ih =>
    rw [List.foldl_cons, List.filterMap_cons, ih]
    by_cases hs : s = []
    · have h1 : tagStep m s = m := by simp [tagStep, hs]
      have h2 : tagSel k s = none := by simp [tagSel, hs, splitCh]
      rw [h1, h2]
    · cases hsp : splitCh '=' s with
      | nil =>
        rw [show tagStep m s = m by simp [tagStep, hs, hsp],
            show tagSel k s = none by simp [tagSel, hsp]]
      | cons x t =>
        cases t with
        | nil =>
          rw [show tagStep m s = m by simp [tagStep, hs, hsp],
              show tagSel k s = none by simp [tagSel, hsp]]
        | cons y t2 =>
          cases t2 with
          | nil =>
            by_cases hk : String.mk x = k
            · rw [show tagStep m s = (String.mk x, String.mk y) :: m by
                    simp [tagStep, hs, hsp],
                  show tagSel k s = some (String.mk y) by simp [tagSel, hsp, hk],
                  tmFind_cons, if_pos hk, getLast?_cons_optOr, optOr_assoc,
                  optOr_some]
            · rw [show tagStep m s = (String.mk x, String.mk y) :: m by
                    simp [tagStep, hs, hsp],
                  show tagSel k s = none by simp [tagSel, hsp, hk],
                  tmFind_cons, if_neg hk]
          | cons z t3 =>
            rw [show tagStep m s = m by simp [tagStep, hs, hsp],
                show tagSel k s = none by simp [tagSel, hsp]]

theorem DefaultRec_fst (reset : Bool) (fs : List SField) :
    (DefaultRec reset fs).1 = fs.map (fun f => (defaultField reset f).1) := by
  induction fs with
  | nil => rfl
  | cons f fs ih => simp [DefaultRec, ih]

theorem LimitRec_fst (clamp : Bool) (fs : List SField) :
    (LimitRec clamp fs).1 = fs.map (fun f => (limitField clamp f).1) := by
  induction fs with
  | nil => rfl
  | cons f fs ih => simp [LimitRec, ih]

theorem DefaultRec_length (reset : Bool) (fs : List SField) :
    (DefaultRec reset fs).1.length = fs.length := by
  rw [DefaultRec_fst, List.length_map]

theorem LimitRec_length (clamp : Bool) (fs : List SField) :
    (LimitRec clamp fs).1.length = fs.length := by
  rw [LimitRec_fst, List.length_map]

theorem stringToValue_ty {ty : Ty} {s : String} {w : Val}
    (h : stringToValue ty s = some w) : w.ty = ty := by
  cases ty with
  | int =>
    simp only [stringToValue, Option.map_eq_some'] at h
    obtain ⟨n, -, rfl⟩ := h
    rfl
  | str =>
    simp only [stringToValue, Option.some.injEq] at h
    rw [← h]
    rfl
  | bool =>
    simp only [stringToValue, Option.map_eq_some'] at h
    obtain ⟨b, -, rfl⟩ := h
    rfl

theorem strCmp_self (l : List Char) : strCmp l l = .eq := by
  induction l with
  | nil => rfl
  | cons c l ih => simp [strCmp, ih]

theorem valCompare_self (v : Val) : valCompare v v = .eq := by
  cases v with
  | vInt a => simp [valCompare]
  | vStr s => simp [valCompare, strCmp_self]
  | vBool b => simp [valCompare]

theorem strCmp_swap (a b : List Char) : strCmp b a = (strCmp a b).swap := by
  induction a generalizing b with
  | nil => cases b <;> rfl
  | cons x xs ih =>
    cases b with
    | nil => rfl
    | cons y ys =>
      simp only [strCmp]
      by_cases h1 : x.toNat < y.toNat
      · rw [if_neg (by omega), if_pos h1, if_pos h1]; rfl
      · by_cases h2 : y.toNat < x.toNat
        · rw [if_pos h2, if_neg h1, if_pos h2]; rfl
        · rw [if_neg h2, if_neg h1, if_neg h1, if_neg h2, ih]

theorem valCompare_swap {v w : Val} (h : v.ty = w.ty) :
    valCompare w v = (valCompare v w).swap := by
  cases v with
  | vInt a =>
    cases w with
    | vInt b =>
      simp only [valCompare]
      split_ifs <;> first | rfl | omega
    | vStr _ => simp [Val.ty] at h
    | vBool _ => simp [Val.ty] at h
  | vStr a =>
    cases w with
    | vInt _ => simp [Val.ty] at h
    | vStr b =>
      simp only [valCompare]
      exact strCmp_swap a.data b.data
    | vBool _ => simp [Val.ty] at h
  | vBool a =>
    cases w with
    | vInt _ => simp [Val.ty] at h
    | vStr _ => simp [Val.ty] at h
    | vBool b => cases a <;> cases b <;> rfl

theorem strCmp_nil_ne_gt (l : List Char) : strCmp [] l ≠ .gt := by
  cases l <;> simp [strCmp]

theorem LimitRec_getElem (clamp : Bool) (fs : List SField) (i : Nat)
    (h : i < fs.length) (h1 : i < (LimitRec clamp fs).1.length) :
    (LimitRec clamp fs).1[i] = (limitField clamp fs[i]).1 := by
  have key : (LimitRec clamp fs).1[i]? = some (limitField clamp fs[i]).1 := by
    rw [LimitRec_fst, List.getElem?_map, List.getElem?_eq_getElem h]
    rfl
  rw [List.getElem?_eq_getElem h1] at key
  exact Option.some.inj key

theorem setDefaultsLeaf_reset_default {name : String} {tags : Tagmap} {v d : Val}
    {D : String} (hN : tmFind tags "nil" = none)
    (hD : tmFind tags "default" = some D)
    (hd : stringToValue v.ty D = some d) :
    (setDefaultsLeaf name tags true v).1 = d := by
  simp [setDefaultsLeaf, hN, hD, setDefaultsApply, hd]

theorem setDefaultsLeaf_reset_noDefault {name : String} {tags : Tagmap} {v : Val}
    (hD : tmFind tags "default" = none) :
    (setDefaultsLeaf name tags true v).1 = v := by
  simp [setDefaultsLeaf, hD]

theorem stringToValue_empty (ty : Ty) :
    stringToValue ty "" = (if ty = .str then some (.vStr "") else none) := by
  cases ty <;> rfl

theorem applyBound_empty (name : String) (tags : Tagmap) (clamp : Bool)
    (bad : Ordering) (v : Val) :
    applyBound name tags clamp "" bad v = .ok v := rfl

theorem applyBound_no_violation {name : String} {tags : Tagmap} {clamp : Bool}
    {bstr : String} {bad : Ordering} {v bv : Val} (hb : bstr ≠ "")
    (hbv : stringToValue v.ty bstr = some bv)
    (hc : valCompare v bv ≠ bad) :
    applyBound name tags clamp bstr bad v = .ok v := by
  simp [applyBound, hb, hbv, hc]

theorem applyBound_clamp {name : String} {tags : Tagmap} {bstr : String}
    {bad : Ordering} {v bv : Val} (hb : bstr ≠ "")
    (hbv : stringToValue v.ty bstr = some bv)
    (hc : valCompare v bv = bad) :
    applyBound name tags true bstr bad v = .ok bv := by
  simp [applyBound, hb, hbv, hc]

theorem applyBound_default {name : String} {tags : Tagmap} {bstr D : String}
    {bad : Ordering} {v bv d : Val} (hb : bstr ≠ "")
    (hbv : stringToValue v.ty bstr = some bv)
    (hc : valCompare v bv = bad)
    (hD : tmFind tags "default" = some D)
    (hd : stringToValue v.ty D = some d) :
    applyBound name tags false bstr bad v = .ok d := by
  simp [applyBound, hb, hbv, hc, hD, hd]

theorem applyBound_noDefault {name : String} {tags : Tagmap} {bstr : String}
    {bad : Ordering} {v bv : Val} (hb : bstr ≠ "")
    (hbv : stringToValue v.ty bstr = some bv)
    (hc : valCompare v bv = bad)
    (hD : tmFind tags "default" = none) :
    applyBound name tags false bstr bad v
      = (if v.ty = .str then .ok (.vStr "")
         else .error (zeroOf v.ty, .invalidRange name)) := by
  cases v with
  | vInt a =>
    simp only [Val.ty] at hbv
    simp [applyBound, hb, hbv, hc, hD, Val.ty, zeroOf, stringToValue_empty]
  | vStr s =>
    simp only [Val.ty] at hbv
    simp [applyBound, hb, hbv, hc, hD, Val.ty, zeroOf, stringToValue_empty]
  | vBool b =>
    simp only [Val.ty] at hbv
    simp [applyBound, hb, hbv, hc, hD, Val.ty, zeroOf, stringToValue_empty]

theorem limitField_val {clamp : Bool} {f : SField} {tagstr : String}
    (ht : f.tag = some tagstr) :
    (limitField clamp f).1.val
      = (setLimitsLeaf f.name (parseTagmap tagstr) clamp f.val).1 := by
  simp [limitField, ht]

theorem setLimits_enum_eval {name : String} {tags : Tagmap} {clamp : Bool}
    {rng : String} {v : Val} (hR : tmFind tags "range" = some rng)
    (hC : rng.data.any (· = ',') = true) :
    setLimitsLeaf name tags clamp v
      = (match matchChoice v ((splitCh ',' rng.data).map String.mk) with
         | .err => (v, [.invalidRange name])
         | .matched => if clamp then setDefaultsLeaf name tags true v else (v, [])
         | .unmatched => setDefaultsLeaf name tags true v) := by
  simp [setLimitsLeaf, hR, hC]

theorem setLimits_range_eval {name : String} {tags : Tagmap} {clamp : Bool}
    {rng s0 s1 : String} {v : Val} (hR : tmFind tags "range" = some rng)
    (hnc : rng.data.any (· = ',') = false)
    (hcl : rng.data.any (· = ':') = true)
    (hsp : (splitCh ':' rng.data).map String.mk = [s0, s1]) :
    setLimitsLeaf name tags clamp v
      = (match applyBound name tags clamp s0 .lt v with
         | .error (v', w) => (v', [w])
         | .ok v' =>
           match applyBound name tags clamp s1 .gt v' with
           | .error (v'', w) => (v'', [w])
           | .ok v'' => (v'', [])) := by
  simp [setLimitsLeaf, hR, hnc, hcl, hsp]

end Lemmas

theorem RegSub.rfl (r : Registry) : RegSub r r := fun _ h => h

theorem RegSub.comp {a b c : Registry} (h1 : RegSub a b) (h2 : RegSub b c) :
    RegSub a c := fun n h => h2 n (h1 n h)

theorem regLookup_cons (n : String) (t : GoTy) (reg : Registry) (m : String) :
    regLookup ((n, t) :: reg) m = if n = m then some t else regLookup reg m := by
  by_cases h : n = m <;> simp [regLookup, List.find?, h]

theorem regLookup_registerNamed_self (reg : Registry) (n : String) (t : GoTy) :
    (regLookup (registerNamed reg n t) n).isSome = true := by
  by_cases h : (regLookup reg n).isSome
  · simp [registerNamed, h]
  · simp [registerNamed, h, regLookup_cons]

theorem registerNamed_of_present {reg : Registry} {n : String} (t : GoTy)
    (h : (regLookup reg n).isSome = true) : registerNamed reg n t = reg := by
  simp [registerNamed, h]

theorem regSub_registerNamed (reg : Registry) (n : String) (t : GoTy) :
    RegSub reg (registerNamed reg n t) := by
  intro m hm
  by_cases h : (regLookup reg n).isSome
  · simpa [registerNamed, h] using hm
  · rw [registerNamed, if_neg (by simp [h]), regLookup_cons]
    by_cases hnm : n = m <;> simp [hnm, hm]

mutual

theorem initFields_mono (reg : Registry) (addr : Bool) (l : List INode) :
    (initFields reg addr true l).2.1 = true := by
  cases l with
  | nil => simp [initFields]
  | cons f fs =>
    have hf := initFld_mono reg addr f
    rcases hfd : initFld reg addr true f with ⟨f', u', out⟩
    rw [hfd] at hf
    simp only at hf
    subst hf
    cases out with
    | ok =>
      have hrest := initFields_mono reg addr fs
      rcases hr : initFields reg addr true fs with ⟨fs', u'', out2⟩
      rw [hr] at hrest
      simp only at hrest
      simp [initFields, hfd, hr, hrest]
    | errNotFound => simp [initFields, hfd]
    | panicSet => simp [initFields, hfd]
termination_by (sizeOf l, 0)

theorem initFld_mono (reg : Registry) (addr : Bool) (f : INode) :
    (initFld reg addr true f).2.1 = true := by
  match f with
  | .ptr (some inner) =>
    have h := initFldCore_mono reg true inner
    rcases hc : initFldCore reg true true inner with ⟨n, u', out⟩
    rw [hc] at h
    simp only at h
    subst h
    simp [initFld, hc]
  | .ptr none => simp [initFld]
  | .iface tn val =>
    have h := initFldCore_mono reg addr (.iface tn val)
    simpa [initFld] using h
  | .strukt fs =>
    have h := initFldCore_mono reg addr (.strukt fs)
    simpa [initFld] using h
  | .fseq es =>
    have h := initFldCore_mono reg addr (.fseq es)
    simpa [initFld] using h
  | .farr es =>
    have h := initFldCore_mono reg addr (.farr es)
    simpa [initFld] using h
  | .fmap es =>
    have h := initFldCore_mono reg addr (.fmap es)
    simpa [initFld] using h
  | .other =>
    have h := initFldCore_mono reg addr .other
    simpa [initFld] using h
termination_by (sizeOf f, 3)

theorem initFldCore_mono (reg : Registry) (addr : Bool) (f : INode) :
    (initFldCore reg addr true f).2.1 = true := by
  match f with
  | .fseq es =>
    have h := initElems_mono reg true es
    rcases he : initElems reg true true es with ⟨es', u', out⟩
    rw [he] at h
    simp only at h
    subst h
    simp [initFldCore, he]
  | .farr es =>
    have h := initElems_mono reg addr es
    rcases he : initElems reg addr true es with ⟨es', u', out⟩
    rw [he] at h
    simp only at h
    subst h
    simp [initFldCore, he]
  | .fmap es =>
    have h := initElems_mono reg false es
    rcases he : initElems reg false true es with ⟨es', u', out⟩
    rw [he] at h
    simp only at h
    subst h
    simp [initFldCore, he]
  | .iface tn val =>
    have h := initIfaceElem_mono reg addr (.iface tn val)
    simpa [initFldCore] using h
  | .strukt fs =>
    have h := initIfaceElem_mono reg addr (.strukt fs)
    simpa [initFldCore] using h
  | .ptr inner => simp [initFldCore]
  | .other => simp [initFldCore]
termination_by (sizeOf f, 2)

theorem initElems_mono (reg : Registry) (addr : Bool) (l : List INode) :
    (initElems reg addr true l).2.1 = true := by
  cases l with
  | nil => simp [initElems]
  | cons e es =>
    have he := initIfaceElem_mono reg addr e
    rcases hed : initIfaceElem reg addr true e with ⟨e', u', out⟩
    rw [hed] at he
    simp only at he
    subst he
    cases out with
    | ok =>
      have hrest := initElems_mono reg addr es
      rcases hr : initElems reg addr true es with ⟨es', u'', out2⟩
      rw [hr] at hrest
      simp only at hrest
      simp [initElems, hed, hr, hrest]
    | errNotFound => simp [initElems, hed]
    | panicSet => simp [initElems, hed]
termination_by (sizeOf l, 0)

theorem initIfaceElem_mono (reg : Registry) (addr : Bool) (e : INode) :
    (initIfaceElem reg addr true e).2.1 = true := by
  match e with
  | .ptr (some inner) =>
    have h := initIfaceElem_mono reg true inner
    rcases hc : initIfaceElem reg true true inner with ⟨n, u', out⟩
    rw [hc] at h
    simp only at h
    subst h
    simp [initIfaceElem, hc]
  | .ptr none => simp [initIfaceElem]
  | .strukt fs =>
    have h := initFields_mono reg addr fs
    rcases hc : initFields reg addr true fs with ⟨fs', u', out⟩
    rw [hc] at h
    simp only at h
    subst h
    simp [initIfaceElem, hc]
  | .iface tn val =>
    by_cases htn : tn = ""
    · simp [initIfaceElem, htn]
    · cases hl : regLookup reg tn with
      | none => simp [initIfaceElem, htn, hl]
      | some t => cases addr <;> simp [initIfaceElem, htn, hl]
  | .fseq es => simp [initIfaceElem]
  | .farr es => simp [initIfaceElem]
  | .fmap es => simp [initIfaceElem]
  | .other => simp [initIfaceElem]
termination_by (sizeOf e, 1)

end

mutual

theorem regFields_sub (reg : Registry) (l : List INode) :
    ∀ l' reg', regFields reg l = .ok (l', reg') → RegSub reg reg' := by
  intro l' reg' h
  cases l with
  | nil =>
    simp [regFields] at h
    rw [← h.2]
    exact RegSub.rfl reg
  | cons f fs =>
    simp only [regFields] at h
    cases hf : regFld reg f with
    | error err => rw [hf] at h; simp at h
    | ok pr =>
      obtain ⟨f', reg₁⟩ := pr
      simp only [hf] at h
      cases hr : regFields reg₁ fs with
      | error err => rw [hr] at h; simp at h
      | ok pr2 =>
        obtain ⟨fs', reg₂⟩ := pr2
        rw [hr] at h
        simp at h
        rw [← h.2]
        exact RegSub.comp (regFld_sub reg f f' reg₁ hf)
          (regFields_sub reg₁ fs fs' reg₂ hr)
termination_by (sizeOf l, 0)

theorem regFld_sub (reg : Registry) (f : INode) :
    ∀ f' reg', regFld reg f = .ok (f', reg') → RegSub reg reg' := by
  intro f' reg' h
  match f with
  | .ptr (some inner) =>
    simp only [regFld] at h
    cases hc : regFldCore reg inner with
    | error err => rw [hc] at h; simp at h
    | ok pr =>
      obtain ⟨n, reg₁⟩ := pr
      rw [hc] at h
      simp at h
      rw [← h.2]
      exact regFldCore_sub reg inner n reg₁ hc
  | .ptr none =>
    simp [regFld] at h
    rw [← h.2]
    exact RegSub.rfl reg
  | .iface tn val => exact regFldCore_sub reg (.iface tn val) f' reg' (by simpa [regFld] using h)
  | .strukt fs => exact regFldCore_sub reg (.strukt fs) f' reg' (by simpa [regFld] using h)
  | .fseq es => exact regFldCore_sub reg (.fseq es) f' reg' (by simpa [regFld] using h)
  | .farr es => exact regFldCore_sub reg (.farr es) f' reg' (by simpa [regFld] using h)
  | .fmap es => exact regFldCore_sub reg (.fmap es) f' reg' (by simpa [regFld] using h)
  | .other => exact regFldCore_sub reg .other f' reg' (by simpa [regFld] using h)
termination_by (sizeOf f, 3)

theorem regFldCore_sub (reg : Registry) (f : INode) :
    ∀ f' reg', regFldCore reg f = .ok (f', reg') → RegSub reg reg' := by
  intro f' reg' h
  match f with
  | .fseq es =>
    simp only [regFldCore] at h
    cases he : regElems reg es with
    | error err => rw [he] at h; simp at h
    | ok pr =>
      obtain ⟨es', reg₁⟩ := pr
      rw [he] at h
      simp at h
      rw [← h.2]
      exact regElems_sub reg es es' reg₁ he
  | .farr es =>
    simp only [regFldCore] at h
    cases he : regElems reg es with
    | error err => rw [he] at h; simp at h
    | ok pr =>
      obtain ⟨es', reg₁⟩ := pr
      rw [he] at h
      simp at h
      rw [← h.2]
      exact regElems_sub reg es es' reg₁ he
  | .fmap es =>
    cases es with
    | nil =>
      simp [regFldCore] at h
      rw [← h.2]
      exact RegSub.rfl reg
    | cons e es => simp [regFldCore] at h
  | .iface tn val =>
    exact regIfaceValue_sub reg (.iface tn val) f' reg' (by simpa [regFldCore] using h)
  | .strukt fs =>
    exact regIfaceValue_sub reg (.strukt fs) f' reg' (by simpa [regFldCore] using h)
  | .ptr inner =>
    simp [regFldCore] at h
    rw [← h.2]
    exact RegSub.rfl reg
  | .other =>
    simp [regFldCore] at h
    rw [← h.2]
    exact RegSub.rfl reg
termination_by (sizeOf f, 2)

theorem regElems_sub (reg : Registry) (l : List INode) :
    ∀ l' reg', regElems reg l = .ok (l', reg') → RegSub reg reg' := by
  intro l' reg' h
  cases l with
  | nil =>
    simp [regElems] at h
    rw [← h.2]
    exact RegSub.rfl reg
  | cons e es =>
    simp only [regElems] at h
    cases he : regIfaceValue reg e with
    | error err => rw [he] at h; simp at h
    | ok pr =>
      obtain ⟨e', reg₁⟩ := pr
      simp only [he] at h
      cases hr : regElems reg₁ es with
      | error err => rw [hr] at h; simp at h
      | ok pr2 =>
        obtain ⟨es', reg₂⟩ := pr2
        rw [hr] at h
        simp at h
        rw [← h.2]
        exact RegSub.comp (regIfaceValue_sub reg e e' reg₁ he)
          (regElems_sub reg₁ es es' reg₂ hr)
termination_by (sizeOf l, 0)

theorem regIfaceValue_sub (reg : Registry) (e : INode) :
    ∀ e' reg', regIfaceValue reg e = .ok (e', reg') → RegSub reg reg' := by
  intro e' reg' h
  match e with
  | .iface tn none =>
    simp [regIfaceValue] at h
    rw [← h.2]
    exact RegSub.rfl reg
  | .iface tn (some d) =>
    by_cases htn : tn = ""
    · simp [regIfaceValue, htn] at h
      rw [← h.2]
      exact regSub_registerNamed reg d.longName d.ty
    · simp [regIfaceValue, htn] at h
      rw [← h.2]
      exact RegSub.rfl reg
  | .strukt fs =>
    simp only [regIfaceValue] at h
    cases hr : regFields reg fs with
    | error err => rw [hr] at h; simp at h
    | ok pr =>
      obtain ⟨fs', reg₁⟩ := pr
      rw [hr] at h
      simp at h
      rw [← h.2]
      exact regFields_sub reg fs fs' reg₁ hr
  | .fseq es => simp [regIfaceValue] at h
  | .farr es => simp [regIfaceValue] at h
  | .fmap es => simp [regIfaceValue] at h
  | .ptr inner => simp [regIfaceValue] at h
  | .other => simp [regIfaceValue] at h
termination_by (sizeOf e, 1)

end

mutual

theorem regFields_idem (reg : Registry) (l : List INode) :
    ∀ l' reg' R, regFields reg l = .ok (l', reg') → RegSub reg' R →
      regFields R l' = .ok (l', R) := by
  intro l' reg' R h hsub
  cases l with
  | nil =>
    simp [regFields] at h
    obtain ⟨rfl, rfl⟩ := h
    simp [regFields]
  | cons f fs =>
    simp only [regFields] at h
    cases hf : regFld reg f with
    | error err => rw [hf] at h; simp at h
    | ok pr =>
      obtain ⟨f', reg₁⟩ := pr
      simp only [hf] at h
      cases hr : regFields reg₁ fs with
      | error err => rw [hr] at h; simp at h
      | ok pr2 =>
        obtain ⟨fs', reg₂⟩ := pr2
        simp only [hr] at h
        simp at h
        obtain ⟨rfl, rfl⟩ := h
        have hsub₁ : RegSub reg₁ R :=
          RegSub.comp (regFields_sub reg₁ fs fs' reg₂ hr) hsub
        have h1 := regFld_idem reg f f' reg₁ R hf hsub₁
        have h2 := regFields_idem reg₁ fs fs' reg₂ R hr hsub
        simp [regFields, h1, h2]
termination_by (sizeOf l, 0)

theorem regFld_idem (reg : Registry) (f : INode) :
    ∀ f' reg' R, regFld reg f = .ok (f', reg') → RegSub reg' R →
      regFld R f' = .ok (f', R) := by
  intro f' reg' R h hsub
  match f with
  | .ptr (some inner) =>
    simp only [regFld] at h
    cases hc : regFldCore reg inner with
    | error err => rw [hc] at h; simp at h
    | ok pr =>
      obtain ⟨n, reg₁⟩ := pr
      simp only [hc] at h
      simp at h
      obtain ⟨rfl, rfl⟩ := h
      have h1 := (regFldCore_idem reg inner n reg₁ R hc hsub).1
      simp [regFld, h1]
  | .ptr none =>
    simp [regFld] at h
    obtain ⟨rfl, rfl⟩ := h
    simp [regFld]
  | .iface tn val =>
    have h' : regFldCore reg (.iface tn val) = .ok (f', reg') := by
      simpa [regFld] using h
    obtain ⟨h1, hshape⟩ := regFldCore_idem reg (.iface tn val) f' reg' R h' hsub
    cases f' with
    | ptr inner => simp [INode.isPtrNode] at hshape
    | iface tn2 val2 => simpa [regFld] using h1
    | strukt fs2 => simpa [regFld] using h1
    | fseq es2 => simpa [regFld] using h1
    | farr es2 => simpa [regFld] using h1
    | fmap es2 => simpa [regFld] using h1
    | other => simpa [regFld] using h1
  | .strukt fs =>
    have h' : regFldCore reg (.strukt fs) = .ok (f', reg') := by
      simpa [regFld] using h
    obtain ⟨h1, hshape⟩ := regFldCore_idem reg (.strukt fs) f' reg' R h' hsub
    cases f' with
    | ptr inner => simp [INode.isPtrNode] at hshape
    | iface tn2 val2 => simpa [regFld] using h1
    | strukt fs2 => simpa [regFld] using h1
    | fseq es2 => simpa [regFld] using h1
    | farr es2 => simpa [regFld] using h1
    | fmap es2 => simpa [regFld] using h1
    | other => simpa [regFld] using h1
  | .fseq es =>
    have h' : regFldCore reg (.fseq es) = .ok (f', reg') := by
      simpa [regFld] using h
    obtain ⟨h1, hshape⟩ := regFldCore_idem reg (.fseq es) f' reg' R h' hsub
    cases f' with
    | ptr inner => simp [INode.isPtrNode] at hshape
    | iface tn2 val2 => simpa [regFld] using h1
    | strukt fs2 => simpa [regFld] using h1
    | fseq es2 => simpa [regFld] using h1
    | farr es2 => simpa [regFld] using h1
    | fmap es2 => simpa [regFld] using h1
    | other => simpa [regFld] using h1
  | .farr es =>
    have h' : regFldCore reg (.farr es) = .ok (f', reg') := by
      simpa [regFld] using h
    obtain ⟨h1, hshape⟩ := regFldCore_idem reg (.farr es) f' reg' R h' hsub
    cases f' with
    | ptr inner => simp [INode.isPtrNode] at hshape
    | iface tn2 val2 => simpa [regFld] using h1
    | strukt fs2 => simpa [regFld] using h1
    | fseq es2 => simpa [regFld] using h1
    | farr es2 => simpa [regFld] using h1
    | fmap es2 => simpa [regFld] using h1
    | other => simpa [regFld] using h1
  | .fmap es =>
    have h' : regFldCore reg (.fmap es) = .ok (f', reg') := by
      simpa [regFld] using h
    obtain ⟨h1, hshape⟩ := regFldCore_idem reg (.fmap es) f' reg' R h' hsub
    cases f' with
    | ptr inner => simp [INode.isPtrNode] at hshape
    | iface tn2 val2 => simpa [regFld] using h1
    | strukt fs2 => simpa [regFld] using h1
    | fseq es2 => simpa [regFld] using h1
    | farr es2 => simpa [regFld] using h1
    | fmap es2 => simpa [regFld] using h1
    | other => simpa [regFld] using h1
  | .other =>
    have h' : regFldCore reg .other = .ok (f', reg') := by
      simpa [regFld] using h
    obtain ⟨h1, hshape⟩ := regFldCore_idem reg .other f' reg' R h' hsub
    cases f' with
    | ptr inner => simp [INode.isPtrNode] at hshape
    | iface tn2 val2 => simpa [regFld] using h1
    | strukt fs2 => simpa [regFld] using h1
    | fseq es2 => simpa [regFld] using h1
    | farr es2 => simpa [regFld] using h1
    | fmap es2 => simpa [regFld] using h1
    | other => simpa [regFld] using h1
termination_by (sizeOf f, 3)

theorem regFldCore_idem (reg : Registry) (f : INode) :
    ∀ f' reg' R, regFldCore reg f = .ok (f', reg') → RegSub reg' R →
      regFldCore R f' = .ok (f', R) ∧ f'.isPtrNode = f.isPtrNode := by
  intro f' reg' R h hsub
  match f with
  | .fseq es =>
    simp only [regFldCore] at h
    cases he : regElems reg es with
    | error err => rw [he] at h; simp at h
    | ok pr =>
      obtain ⟨es', reg₁⟩ := pr
      simp only [he] at h
      simp at h
      obtain ⟨rfl, rfl⟩ := h
      have h1 := regElems_idem reg es es' reg₁ R he hsub
      exact ⟨by simp [regFldCore, h1], rfl⟩
  | .farr es =>
    simp only [regFldCore] at h
    cases he : regElems reg es with
    | error err => rw [he] at h; simp at h
    | ok pr =>
      obtain ⟨es', reg₁⟩ := pr
      simp only [he] at h
      simp at h
      obtain ⟨rfl, rfl⟩ := h
      have h1 := regElems_idem reg es es' reg₁ R he hsub
      exact ⟨by simp [regFldCore, h1], rfl⟩
  | .fmap es =>
    cases es with
    | nil =>
      simp [regFldCore] at h
      obtain ⟨rfl, rfl⟩ := h
      exact ⟨by simp [regFldCore], rfl⟩
    | cons e es => simp [regFldCore] at h
  | .iface tn val =>
    have h' : regIfaceValue reg (.iface tn val) = .ok (f', reg') := by
      simpa [regFldCore] using h
    obtain ⟨h1, hsh⟩ := regIfaceValue_idem reg (.iface tn val) f' reg' R h' hsub
    rcases hsh with ⟨tn2, val2, rfl⟩ | ⟨fs2, rfl⟩
    · exact ⟨by simpa [regFldCore] using h1, rfl⟩
    · exact ⟨by simpa [regFldCore] using h1, rfl⟩
  | .strukt fs =>
    have h' : regIfaceValue reg (.strukt fs) = .ok (f', reg') := by
      simpa [regFldCore] using h
    obtain ⟨h1, hsh⟩ := regIfaceValue_idem reg (.strukt fs) f' reg' R h' hsub
    rcases hsh with ⟨tn2, val2, rfl⟩ | ⟨fs2, rfl⟩
    · exact ⟨by simpa [regFldCore] using h1, rfl⟩
    · exact ⟨by simpa [regFldCore] using h1, rfl⟩
  | .ptr inner =>
    simp [regFldCore] at h
    obtain ⟨rfl, rfl⟩ := h
    exact ⟨by simp [regFldCore], rfl⟩
  | .other =>
    simp [regFldCore] at h
    obtain ⟨rfl, rfl⟩ := h
    exact ⟨by simp [regFldCore], rfl⟩
termination_by (sizeOf f, 2)

theorem regElems_idem (reg : Registry) (l : List INode) :
    ∀ l' reg' R, regElems reg l = .ok (l', reg') → RegSub reg' R →
      regElems R l' = .ok (l', R) := by
  intro l' reg' R h hsub
  cases l with
  | nil =>
    simp [regElems] at h
    obtain ⟨rfl, rfl⟩ := h
    simp [regElems]
  | cons e es =>
    simp only [regElems] at h
    cases he : regIfaceValue reg e with
    | error err => rw [he] at h; simp at h
    | ok pr =>
      obtain ⟨e', reg₁⟩ := pr
      simp only [he] at h
      cases hr : regElems reg₁ es with
      | error err => rw [hr] at h; simp at h
      | ok pr2 =>
        obtain ⟨es', reg₂⟩ := pr2
        simp only [hr] at h
        simp at h
        obtain ⟨rfl, rfl⟩ := h
        have hsub₁ : RegSub reg₁ R :=
          RegSub.comp (regElems_sub reg₁ es es' reg₂ hr) hsub
        have h1 := (regIfaceValue_idem reg e e' reg₁ R he hsub₁).1
        have h2 := regElems_idem reg₁ es es' reg₂ R hr hsub
        simp [regElems, h1, h2]
termination_by (sizeOf l, 0)

theorem regIfaceValue_idem (reg : Registry) (e : INode) :
    ∀ e' reg' R, regIfaceValue reg e = .ok (e', reg') → RegSub reg' R →
      regIfaceValue R e' = .ok (e', R)
      ∧ ((∃ tn2 val2, e' = .iface tn2 val2) ∨ (∃ fs2, e' = .strukt fs2)) := by
  intro e' reg' R h hsub
  match e with
  | .iface tn none =>
    simp [regIfaceValue] at h
    obtain ⟨rfl, rfl⟩ := h
    exact ⟨by simp [regIfaceValue], Or.inl ⟨tn, none, rfl⟩⟩
  | .iface tn (some d) =>
    by_cases htn : tn = ""
    · simp [regIfaceValue, htn] at h
      obtain ⟨rfl, rfl⟩ := h
      refine ⟨?_, Or.inl ⟨d.longName, some d, rfl⟩⟩
      by_cases hnm : d.longName = ""
      · have hpres : (regLookup R d.longName).isSome = true :=
          hsub d.longName (regLookup_registerNamed_self reg d.longName d.ty)
        rw [hnm] at hpres
        simp [regIfaceValue, hnm, registerNamed_of_present d.ty hpres]
      · simp [regIfaceValue, hnm]
    · simp [regIfaceValue, htn] at h
      obtain ⟨rfl, rfl⟩ := h
      exact ⟨by simp [regIfaceValue, htn], Or.inl ⟨tn, some d, rfl⟩⟩
  | .strukt fs =>
    simp only [regIfaceValue] at h
    cases hr : regFields reg fs with
    | error err => rw [hr] at h; simp at h
    | ok pr =>
      obtain ⟨fs', reg₁⟩ := pr
      simp only [hr] at h
      simp at h
      obtain ⟨rfl, rfl⟩ := h
      have h1 := regFields_idem reg fs fs' reg₁ R hr hsub
      exact ⟨by simp [regIfaceValue, h1], Or.inr ⟨fs', rfl⟩⟩
  | .fseq es => simp [regIfaceValue] at h
  | .farr es => simp [regIfaceValue] at h
  | .fmap es => simp [regIfaceValue] at h
  | .ptr inner => simp [regIfaceValue] at h
  | .other => simp [regIfaceValue] at h
termination_by (sizeOf e, 1)

end

/-- C1: a field tagged with a default and no nil key is set to the parsed
default by `Default(config, false)` exactly when it is at its type's zero
value (otherwise left unchanged), and is always set to the parsed default by
`Default(config, true)`. -/
theorem default_assigns_zero_and_reset_fields (fs : List SField) (i : Nat)
    (h : i < fs.length)
    (h1 : i < (DefaultRec false fs).1.length)
    (h2 : i < (DefaultRec true fs).1.length)
    (tagstr D : String) (d : Val)
    (ht : fs[i].tag = some tagstr)
    (hD : tmFind (parseTagmap tagstr) "default" = some D)
    (hN : tmFind (parseTagmap tagstr) "nil" = none)
    (hd : stringToValue fs[i].val.ty D = some d) :
    (DefaultRec false fs).1[i].val = (if fs[i].val.isZero then d else fs[i].val)
    ∧ (DefaultRec true fs).1[i].val = d := by
  have key : ∀ reset, (DefaultRec reset fs).1[i]? = some (defaultField reset fs[i]).1 := by
    intro reset
    rw [DefaultRec_fst, List.getElem?_map, List.getElem?_eq_getElem h]
    rfl
  have e1 := key false
  have e2 := key true
  rw [List.getElem?_eq_getElem h1] at e1
  rw [List.getElem?_eq_getElem h2] at e2
  have e1' := Option.some.inj e1
  have e2' := Option.some.inj e2
  rw [e1', e2']
  constructor
  · simp only [defaultField, ht, Option.getD_some, setDefaultsLeaf, hD, hN]
    cases hz : fs[i].val.isZero <;>
      simp [setDefaultsApply, hz, hd]
  · simp only [defaultField, ht, Option.getD_some, setDefaultsLeaf, hD, hN]
    simp [setDefaultsApply, hd]

/-- Witness for C1 on Scenario A's fields. -/
theorem default_assigns_zero_and_reset_fields_witness :
    (DefaultRec false [⟨"Name", some "default=foo", .vStr ""⟩]).1[0].val
      = (if (Val.vStr "").isZero then Val.vStr "foo" else Val.vStr "") := by
  exact (default_assigns_zero_and_reset_fields
    [⟨"Name", some "default=foo", .vStr ""⟩] 0 (by decide) (by decide) (by decide)
    "default=foo" "foo" (.vStr "foo") (by decide) (by decide) (by decide) (by decide)).1

/-- C2 counterexample: with tag `nil=-1;default=42` a field holding `0`
differs from the parsed nil literal `-1`, yet `Default(config, false)` still
sets it to `42` (the `IsZero` test applies even when a nil literal is
defined), contradicting the claim that such a value is left unchanged. -/
theorem nil_tag_zero_value_still_defaulted :
    stringToValue Ty.int "-1" = some (Val.vInt (-1))
    ∧ Val.vInt 0 ≠ Val.vInt (-1)
    ∧ (DefaultRec false [⟨"Age", some "nil=-1;default=42", .vInt 0⟩]).1
        = [⟨"Age", some "nil=-1;default=42", .vInt 42⟩] := by
  refine ⟨by decide, by decide, by decide⟩

/-- C2 (amended): with both a nil and a default tag, `Default(config, false)`
treats the field as empty exactly when it equals the parsed nil literal OR is
at its type's zero value; only values that are neither are left unchanged. -/
theorem default_empty_iff_zero_or_nil_match (fs : List SField) (i : Nat)
    (h : i < fs.length)
    (h1 : i < (DefaultRec false fs).1.length)
    (tagstr D N : String) (d nv : Val)
    (ht : fs[i].tag = some tagstr)
    (hD : tmFind (parseTagmap tagstr) "default" = some D)
    (hN : tmFind (parseTagmap tagstr) "nil" = some N)
    (hnv : stringToValue fs[i].val.ty N = some nv)
    (hd : stringToValue fs[i].val.ty D = some d) :
    (DefaultRec false fs).1[i].val =
      (if fs[i].val.isZero || (valCompare fs[i].val nv == .eq) then d
       else fs[i].val) := by
  have key : (DefaultRec false fs).1[i]? = some (defaultField false fs[i]).1 := by
    rw [DefaultRec_fst, List.getElem?_map, List.getElem?_eq_getElem h]
    rfl
  rw [List.getElem?_eq_getElem h1] at key
  rw [Option.some.inj key]
  simp only [defaultField, ht, Option.getD_some, setDefaultsLeaf, hD, hN, hnv]
  cases hz : (fs[i].val.isZero || (valCompare fs[i].val nv == .eq)) <;>
    simp [setDefaultsApply, hz, hd]

/-- Witness for C2 (amended): value 7 with `nil=-1;default=42` is neither zero
nor the nil literal and stays 7. -/
theorem default_empty_iff_zero_or_nil_match_witness :
    (DefaultRec false [⟨"Age", some "nil=-1;default=42", .vInt 7⟩]).1[0].val =
      (if (Val.vInt 7).isZero
          || (valCompare (Val.vInt 7) (Val.vInt (-1)) == .eq) then Val.vInt 42
       else Val.vInt 7) := by
  exact default_empty_iff_zero_or_nil_match
    [⟨"Age", some "nil=-1;default=42", .vInt 7⟩] 0 (by decide) (by decide)
    "nil=-1;default=42" "42" "-1" (.vInt 42) (.vInt (-1))
    (by decide) (by decide) (by decide) (by decide) (by decide)

/-- C8 counterexample: the segment `a=b=c` splits on "=" into three parts, so
`parseTagmap` skips it entirely instead of binding key `a` to `b=c` as the
claim's "split on the first '=' keeping further '='" would. -/
theorem multi_equals_segment_skipped :
    parseTagmap "a=b=c" = [] ∧ tmFind (parseTagmap "a=b=c") "a" ≠ some "b=c" := by
  refine ⟨by decide, by decide⟩

/-- C8 (amended): `parseTagmap` splits the tag on ";", skips empty segments,
keeps exactly the segments that split on "=" into precisely a key and a value
(segments with no "=" or with more than one "=" are skipped silently), and a
later duplicate key overwrites an earlier one: lookup in the parsed map
agrees with taking the last matching well-formed segment.  The parser is a
pure function. -/
theorem parseTagmap_matches_spec_lookup (tag k : String) :
    tmFind (parseTagmap tag) k = tagSpecLookup tag k := by
  rw [parseTagmap, tagSpecLookup, tmFind_foldl_tagStep]
  cases h : ((splitCh ';' tag.data).filterMap (tagSel k)).getLast? <;>
    simp [optOr, tmFind]

/-- C3 counterexample: under `Limit(config, true)` a field whose value `foo`
matches a choice of `range=foo,bar,baz;default=foobar` is reset to the
default `foobar` (clamp forces the reset), and under `Limit(config, false)` a
field whose value 3 matches no choice of `range=2,4` and that has no default
tag keeps its invalid value instead of being zeroed — both contradicting the
claim. -/
theorem limit_enum_clamp_or_no_default_diverges :
    (LimitRec true [⟨"Name", some "range=foo,bar,baz;default=foobar", .vStr "foo"⟩]).1
      = [⟨"Name", some "range=foo,bar,baz;default=foobar", .vStr "foobar"⟩]
    ∧ Val.vStr "foobar" ≠ Val.vStr "foo"
    ∧ (LimitRec false [⟨"Legs", some "range=2,4", .vInt 3⟩]).1
      = [⟨"Legs", some "range=2,4", .vInt 3⟩]
    ∧ Val.vInt 3 ≠ Val.vInt 2 ∧ Val.vInt 3 ≠ Val.vInt 4 ∧ Val.vInt 3 ≠ Val.vInt 0 := by
  refine ⟨by decide, by decide, by decide, by decide, by decide, by decide⟩

/-- C3 (amended): for an enumeration range (with no nil tag), a value matching
a choice is left unchanged only when clamp is false; when clamp is true, or
when no choice matches, the default assignment runs in reset mode — the field
becomes the parsed default when a default tag exists, and is left unchanged
when no default tag exists. -/
theorem limit_enum_matched_and_fallback (clamp : Bool) (fs : List SField)
    (i : Nat) (h : i < fs.length) (h1 : i < (LimitRec clamp fs).1.length)
    (tagstr rng : String)
    (ht : fs[i].tag = some tagstr)
    (hR : tmFind (parseTagmap tagstr) "range" = some rng)
    (hC : rng.data.any (· = ',') = true)
    (hN : tmFind (parseTagmap tagstr) "nil" = none) :
    (matchChoice fs[i].val ((splitCh ',' rng.data).map String.mk) = .matched →
       clamp = false → (LimitRec clamp fs).1[i].val = fs[i].val)
    ∧ ((matchChoice fs[i].val ((splitCh ',' rng.data).map String.mk) = .matched
          ∧ clamp = true)
        ∨ matchChoice fs[i].val ((splitCh ',' rng.data).map String.mk) = .unmatched →
       (∀ D d, tmFind (parseTagmap tagstr) "default" = some D →
          stringToValue fs[i].val.ty D = some d →
          (LimitRec clamp fs).1[i].val = d)
       ∧ (tmFind (parseTagmap tagstr) "default" = none →
          (LimitRec clamp fs).1[i].val = fs[i].val)) := by
  have he : (LimitRec clamp fs).1[i].val
      = (setLimitsLeaf fs[i].name (parseTagmap tagstr) clamp fs[i].val).1 := by
    rw [LimitRec_getElem clamp fs i h h1, limitField_val ht]
  rw [he, setLimits_enum_eval hR hC]
  constructor
  · intro hm hcl
    subst hcl
    simp [hm]
  · intro hcase
    have hred : (match matchChoice fs[i].val ((splitCh ',' rng.data).map String.mk) with
         | ChoiceRes.err => (fs[i].val, [Warning.invalidRange fs[i].name])
         | ChoiceRes.matched =>
             if clamp then setDefaultsLeaf fs[i].name (parseTagmap tagstr) true fs[i].val
             else (fs[i].val, [])
         | ChoiceRes.unmatched =>
             setDefaultsLeaf fs[i].name (parseTagmap tagstr) true fs[i].val).1
        = (setDefaultsLeaf fs[i].name (parseTagmap tagstr) true fs[i].val).1 := by
      rcases hcase with ⟨hm, hcl⟩ | hm
      · subst hcl
        simp [hm]
      · simp [hm]
    rw [hred]
    constructor
    · intro D d hD hd
      exact setDefaultsLeaf_reset_default hN hD hd
    · intro hD
      exact setDefaultsLeaf_reset_noDefault hD

/-- Witness for C3 (amended): a matching value under clamp=false stays. -/
theorem limit_enum_matched_and_fallback_witness :
    (LimitRec false [⟨"Name", some "range=foo,bar,baz;default=foobar", .vStr "foo"⟩]).1[0].val
      = Val.vStr "foo" := by
  exact (limit_enum_matched_and_fallback false
    [⟨"Name", some "range=foo,bar,baz;default=foobar", .vStr "foo"⟩] 0
    (by decide) (by decide) "range=foo,bar,baz;default=foobar" "foo,bar,baz"
    (by decide) (by decide) (by decide) (by decide)).1 (by decide) rfl

/-- C4: for a `range=MIN:MAX` tag with both bounds present, parseable into the
field's kind, and ordered (MIN ≤ MAX), `Limit(config, true)` leaves the field
between the bounds: a value below the minimum becomes the minimum, a value
not below the minimum but above the maximum becomes the maximum, and an
in-range value is unchanged. -/
theorem limit_range_clamp_bounds (fs : List SField) (i : Nat)
    (h : i < fs.length) (h1 : i < (LimitRec true fs).1.length)
    (tagstr rng s0 s1 : String) (mn mx : Val)
    (ht : fs[i].tag = some tagstr)
    (hR : tmFind (parseTagmap tagstr) "range" = some rng)
    (hnc : rng.data.any (· = ',') = false)
    (hcl : rng.data.any (· = ':') = true)
    (hsp : (splitCh ':' rng.data).map String.mk = [s0, s1])
    (h0 : s0 ≠ "") (h1' : s1 ≠ "")
    (hmn : stringToValue fs[i].val.ty s0 = some mn)
    (hmx : stringToValue fs[i].val.ty s1 = some mx)
    (hord : valCompare mn mx ≠ .gt) :
    (valCompare (LimitRec true fs).1[i].val mn ≠ .lt
      ∧ valCompare (LimitRec true fs).1[i].val mx ≠ .gt)
    ∧ (valCompare fs[i].val mn = .lt → (LimitRec true fs).1[i].val = mn)
    ∧ (valCompare fs[i].val mn ≠ .lt → valCompare fs[i].val mx = .gt →
        (LimitRec true fs).1[i].val = mx)
    ∧ (valCompare fs[i].val mn ≠ .lt → valCompare fs[i].val mx ≠ .gt →
        (LimitRec true fs).1[i].val = fs[i].val) := by
  have he : (LimitRec true fs).1[i].val
      = (setLimitsLeaf fs[i].name (parseTagmap tagstr) true fs[i].val).1 := by
    rw [LimitRec_getElem true fs i h h1, limitField_val ht]
  have htymn : mn.ty = fs[i].val.ty := stringToValue_ty hmn
  have htymx : mx.ty = fs[i].val.ty := stringToValue_ty hmx
  rw [he, setLimits_range_eval hR hnc hcl hsp]
  by_cases hlt : valCompare fs[i].val mn = .lt
  · -- below the minimum: clamp to mn, then the max bound does not fire
    have hmx' : stringToValue mn.ty s1 = some mx := by rw [htymn]; exact hmx
    simp only [applyBound_clamp h0 hmn hlt, applyBound_no_violation h1' hmx' hord]
    refine ⟨⟨?_, ?_⟩, fun _ => by trivial, fun hc _ => absurd hlt hc, fun hc _ => absurd hlt hc⟩
    · rw [valCompare_self]
      decide
    · exact hord
  · simp only [applyBound_no_violation h0 hmn hlt]
    by_cases hgt : valCompare fs[i].val mx = .gt
    · -- above the maximum: clamp to mx
      simp only [applyBound_clamp h1' hmx hgt]
      have hswap : valCompare mx mn = (valCompare mn mx).swap :=
        valCompare_swap (htymn.trans htymx.symm)
      refine ⟨⟨?_, ?_⟩, fun hc => absurd hc hlt, fun _ _ => by trivial, fun _ hc => absurd hgt hc⟩
      · rw [hswap]
        intro hcon
        apply hord
        cases hcmp : valCompare mn mx <;> rw [hcmp] at hcon <;> simp [Ordering.swap] at hcon ⊢
      · rw [valCompare_self]
        decide
    · -- in range: unchanged
      simp only [applyBound_no_violation h1' hmx hgt]
      exact ⟨⟨hlt, hgt⟩, fun hc => absurd hc hlt, fun _ hc => absurd hc hgt, fun _ _ => by trivial⟩

/-- Witness for C4 on Scenario C: `range=0:150`, value 210, clamp → 150. -/
theorem limit_range_clamp_bounds_witness :
    (LimitRec true [⟨"Age", some "range=0:150", .vInt 210⟩]).1[0].val = Val.vInt 150 := by
  exact (limit_range_clamp_bounds [⟨"Age", some "range=0:150", .vInt 210⟩] 0
    (by decide) (by decide) "range=0:150" "0:150" "0" "150" (.vInt 0) (.vInt 150)
    (by decide) (by decide) (by decide) (by decide) (by decide) (by decide)
    (by decide) (by decide) (by decide) (by decide)).2.2.1 (by decide) (by decide)

/-- C5 counterexample: a string field whose value `INVALID` matches no choice
of `range=foo,bar` and that carries no default tag is left holding `INVALID`
by `Limit(config, false)` instead of being set to the type's zero value `""`
as the claim requires. -/
theorem limit_enum_no_default_not_zeroed :
    (LimitRec false [⟨"Name", some "range=foo,bar", .vStr "INVALID"⟩]).1
      = [⟨"Name", some "range=foo,bar", .vStr "INVALID"⟩]
    ∧ Val.vStr "INVALID" ≠ zeroOf Ty.str := by
  refine ⟨by decide, by decide⟩

/-- C5 (amended): for a field (no nil tag) failing its range check under
`Limit(config, false)`: when a default tag exists the field is set to the
parsed default, not a clamped bound — for both an enumeration mismatch and a
violated `min:max` bound; when no default tag exists, a bound-violating field
is set to its type's zero value, but an enumeration-mismatched field is left
unchanged. -/
theorem limit_fallback_default_or_zero (fs : List SField) (i : Nat)
    (h : i < fs.length) (h1 : i < (LimitRec false fs).1.length)
    (tagstr rng : String)
    (ht : fs[i].tag = some tagstr)
    (hR : tmFind (parseTagmap tagstr) "range" = some rng)
    (hN : tmFind (parseTagmap tagstr) "nil" = none) :
    (rng.data.any (· = ',') = true →
      matchChoice fs[i].val ((splitCh ',' rng.data).map String.mk) = .unmatched →
      (∀ D d, tmFind (parseTagmap tagstr) "default" = some D →
         stringToValue fs[i].val.ty D = some d →
         (LimitRec false fs).1[i].val = d)
      ∧ (tmFind (parseTagmap tagstr) "default" = none →
         (LimitRec false fs).1[i].val = fs[i].val))
    ∧ (∀ s0 s1 mn mx,
        rng.data.any (· = ',') = false → rng.data.any (· = ':') = true →
        (splitCh ':' rng.data).map String.mk = [s0, s1] → s0 ≠ "" → s1 ≠ "" →
        stringToValue fs[i].val.ty s0 = some mn →
        stringToValue fs[i].val.ty s1 = some mx →
        (valCompare fs[i].val mn = .lt
          ∨ (valCompare fs[i].val mn ≠ .lt ∧ valCompare fs[i].val mx = .gt)) →
        (∀ D d, tmFind (parseTagmap tagstr) "default" = some D →
           stringToValue fs[i].val.ty D = some d →
           (LimitRec false fs).1[i].val = d)
        ∧ (tmFind (parseTagmap tagstr) "default" = none →
           (LimitRec false fs).1[i].val = zeroOf fs[i].val.ty)) := by
  have he : (LimitRec false fs).1[i].val
      = (setLimitsLeaf fs[i].name (parseTagmap tagstr) false fs[i].val).1 := by
    rw [LimitRec_getElem false fs i h h1, limitField_val ht]
  constructor
  · intro hC hum
    rw [he, setLimits_enum_eval hR hC]
    simp only [hum]
    exact ⟨fun D d hD hd => setDefaultsLeaf_reset_default hN hD hd,
           fun hD => setDefaultsLeaf_reset_noDefault hD⟩
  · intro s0 s1 mn mx hnc hcl hsp h0 h1' hmn hmx hviol
    rw [he, setLimits_range_eval hR hnc hcl hsp]
    have htymn : mn.ty = fs[i].val.ty := stringToValue_ty hmn
    have htymx : mx.ty = fs[i].val.ty := stringToValue_ty hmx
    constructor
    · intro D d hD hd
      have htyd : d.ty = fs[i].val.ty := stringToValue_ty hd
      have hd' : stringToValue d.ty D = some d := by rw [htyd]; exact hd
      have hmx'' : stringToValue d.ty s1 = some mx := by rw [htyd]; exact hmx
      rcases hviol with hlt | ⟨hnlt, hgt⟩
      · -- minimum violated: default assigned, max bound then re-defaults or passes
        simp only [applyBound_default h0 hmn hlt hD hd]
        by_cases hdgt : valCompare d mx = .gt
        · simp only [applyBound_default h1' hmx'' hdgt hD hd']
        · simp only [applyBound_no_violation h1' hmx'' hdgt]
      · -- maximum violated: min passes, default assigned at the max bound
        simp only [applyBound_no_violation h0 hmn hnlt,
          applyBound_default h1' hmx hgt hD hd]
    · intro hD
      rcases hviol with hlt | ⟨hnlt, hgt⟩
      · -- minimum violated, no default: the field is zeroed
        simp only [applyBound_noDefault h0 hmn hlt hD]
        by_cases hty : fs[i].val.ty = .str
        · -- a string field continues as "" and the max bound cannot fire on ""
          obtain ⟨m, hm⟩ : ∃ m, mx = .vStr m := by
            rw [hty] at htymx
            cases mx <;> simp [Val.ty] at htymx ⊢
          have hmx'' : stringToValue (Val.vStr "").ty s1 = some mx := by
            show stringToValue Ty.str s1 = some mx
            rw [← hty]
            exact hmx
          have hngt : valCompare (Val.vStr "") mx ≠ .gt := by
            rw [hm]
            exact strCmp_nil_ne_gt m.data
          simp only [hty, eq_self_iff_true, if_true]
          simp only [applyBound_no_violation h1' hmx'' hngt]
          rfl
        · simp only [if_neg hty]
      · -- maximum violated, no default: min passes, then the field is zeroed
        simp only [applyBound_no_violation h0 hmn hnlt,
          applyBound_noDefault h1' hmx hgt hD]
        by_cases hty : fs[i].val.ty = .str
        · simp only [hty, eq_self_iff_true, if_true]
          rfl
        · simp only [if_neg hty]

/-- Witness for C5 on Scenario C's second half: `range=0:150`, value 210, no
default, clamp=false → zero value 0. -/
theorem limit_fallback_default_or_zero_witness :
    (LimitRec false [⟨"Age", some "range=0:150", .vInt 210⟩]).1[0].val
      = zeroOf (Val.vInt 210).ty := by
  exact ((limit_fallback_default_or_zero [⟨"Age", some "range=0:150", .vInt 210⟩] 0
    (by decide) (by decide) "range=0:150" "0:150"
    (by decide) (by decide) (by decide)).2 "0" "150" (.vInt 0) (.vInt 150)
    (by decide) (by decide) (by decide) (by decide) (by decide) (by decide) (by decide)
    (Or.inr ⟨by decide, by decide⟩)).2 (by decide)

/-- C10: a nil config is accepted by both entry points before any parameter
validation: `InitializeInterfaces(nil)` returns `(false, nil)` and
`RegisterInterfaces(nil)` returns a nil error; nothing is modified and no
InvalidParameter error is produced. -/
theorem nil_config_interface_noop (reg : Registry) :
    InitializeInterfacesGo reg none = (none, false, none)
    ∧ RegisterInterfacesGo reg none = (none, reg, none) :=
  ⟨rfl, rfl⟩

/-- C7 (code bug): `RegisterInterfaces` on a config whose only field is a
non-empty map of structs faults: the map branch of `registerInterfaces` calls
`fld.Index(i)` on the map value, and `reflect.Value.Index` panics for a map
kind.  The parallel `InitializeInterfaces` walker (which correctly uses
`iter.Value()`) traverses the same config without fault. -/
theorem register_map_field_panics :
    RegisterInterfacesGo [] (some (.strukt [.fmap [.strukt [.iface "" none]]]))
      = (some (.strukt [.fmap [.strukt [.iface "" none]]]), [],
         some (.inr .panicMapIndex))
    ∧ InitializeInterfacesGo [] (some (.strukt [.fmap [.strukt [.iface "" none]]]))
      = (some (.strukt [.fmap [.strukt [.iface "" none]]]), false, none) := by
  constructor
  · simp [RegisterInterfacesGo, regFields, regFld, regFldCore]
  · simp [InitializeInterfacesGo, initFields, initFld, initFldCore, initElems,
      initIfaceElem]

/-- C6 counterexample: a wrapper reached as a non-pointer map value
(`map[string]Interface`) whose non-empty `Type` names a registered type is
not initialized and the walk does not return true with an allocated `Value`:
`iter.Value()` is unaddressable, so the unguarded `Value.Set` in
`initializeInterfaceField` panics.  The same registry and wrapper at an
addressable position (a struct field) are initialized normally, showing the
divergence is the map position, not the wrapper. -/
theorem map_value_wrapper_set_panics :
    InitializeInterfacesGo [("pkg.T", ⟨"pkg.T", false⟩)]
        (some (.strukt [.fmap [.iface "pkg.T" none]]))
      = (some (.strukt [.fmap [.iface "pkg.T" none]]), false,
         some (.inr .setUnaddressable))
    ∧ regLookup [("pkg.T", ⟨"pkg.T", false⟩)] "pkg.T" = some ⟨"pkg.T", false⟩
    ∧ InitializeInterfacesGo [("pkg.T", ⟨"pkg.T", false⟩)]
        (some (.strukt [.iface "pkg.T" none]))
      = (some (.strukt [.iface "pkg.T" (some (allocForDecode ⟨"pkg.T", false⟩))]),
         true, none) := by
  refine ⟨?_, by decide, ?_⟩ <;>
    simp [InitializeInterfacesGo, initFields, initFld, initFldCore, initElems,
      initIfaceElem, regLookup, List.find?]

/-- C6 (amended): per-wrapper behaviour of `InitializeInterfaces`: a wrapper
with an empty `Type` is skipped unchanged; a wrapper whose `Type` names a
registered type is, at an addressable position (a field of the config
struct, a slice element, behind a pointer), given a freshly allocated zero
value of that type in `Value` (a pointer to a new pointee for a registered
pointer kind, see `allocForDecode`) with the updated flag set — but at an
unaddressable position (reached as or inside a non-pointer map value) the
unguarded `Value.Set` panics instead of initializing it; a wrapper naming an
unregistered type aborts the traversal with an error before any write; a
failing field aborts the whole loop leaving the remaining fields
unprocessed; and the updated flag, once true, stays true, so a successful
walk that touched a wrapper returns true. -/
theorem initialize_wrapper_protocol (reg : Registry) (addr u : Bool)
    (tn : String) (val : Option Dyn) (t : GoTy) (f f' : INode) (u' : Bool)
    (out : IOut) (fs : List INode) :
    (initIfaceElem reg addr u (.iface "" val) = (.iface "" val, u, .ok))
    ∧ (tn ≠ "" → regLookup reg tn = some t →
        initIfaceElem reg true u (.iface tn val)
          = (.iface tn (some (allocForDecode t)), true, .ok))
    ∧ (tn ≠ "" → regLookup reg tn = some t →
        initIfaceElem reg false u (.iface tn val)
          = (.iface tn val, u, .panicSet))
    ∧ (tn ≠ "" → regLookup reg tn = none →
        initIfaceElem reg addr u (.iface tn val) = (.iface tn val, u, .errNotFound))
    ∧ (initFld reg addr u f = (f', u', out) → out ≠ .ok →
        initFields reg addr u (f :: fs) = (f' :: fs, u', out))
    ∧ ((initFields reg addr true fs).2.1 = true)
    ∧ (∀ fs₂ fs₂', initFields reg true false fs₂ = (fs₂', true, .ok) →
        InitializeInterfacesGo reg (some (.strukt fs₂))
          = (some (.strukt fs₂'), true, none)) := by
  refine ⟨?_, ?_, ?_, ?_, ?_, initFields_mono reg addr fs, ?_⟩
  · simp [initIfaceElem]
  · intro h1 h2
    simp [initIfaceElem, h1, h2]
  · intro h1 h2
    simp [initIfaceElem, h1, h2]
  · intro h1 h2
    simp [initIfaceElem, h1, h2]
  · intro hf hout
    cases out with
    | ok => exact absurd rfl hout
    | errNotFound => simp [initFields, hf]
    | panicSet => simp [initFields, hf]
  · intro fs₂ fs₂' hrun
    simp [InitializeInterfacesGo, hrun]

/-- Witness for C6 (amended): a wrapper naming a registered non-pointer type
at an addressable position gets a zero value allocated and reports an
update. -/
theorem initialize_wrapper_protocol_witness :
    initIfaceElem [("pkg.T", ⟨"pkg.T", false⟩)] true false (.iface "pkg.T" none)
      = (.iface "pkg.T" (some (allocForDecode ⟨"pkg.T", false⟩)), true, .ok) := by
  exact (initialize_wrapper_protocol [("pkg.T", ⟨"pkg.T", false⟩)] true false
    "pkg.T" none ⟨"pkg.T", false⟩ .other .other false .ok []).2.1
    (by decide) (by decide)

/-- C9: `RegisterInterfaces` never overwrites an already non-empty `Type`
(`registerInterfaceValue` leaves such a wrapper completely untouched), and is
idempotent: once a run succeeds, running it again over the result changes
neither the nodes (in particular no `Type` value) nor the registry. -/
theorem register_interfaces_idempotent (reg reg' : Registry) (tn : String)
    (val : Option Dyn) (root root' : INode) :
    (tn ≠ "" → ∀ reg₀, regIfaceValue reg₀ (.iface tn val) = .ok (.iface tn val, reg₀))
    ∧ (RegisterInterfacesGo reg (some root) = (some root', reg', none) →
        RegisterInterfacesGo reg' (some root') = (some root', reg', none)) := by
  constructor
  · intro htn reg₀
    cases val with
    | none => simp [regIfaceValue]
    | some d => simp [regIfaceValue, htn]
  · intro h
    cases root with
    | strukt fs =>
      simp only [RegisterInterfacesGo] at h
      cases hr : regFields reg fs with
      | error err => rw [hr] at h; simp at h
      | ok pr =>
        obtain ⟨fs', reg₂⟩ := pr
        simp only [hr] at h
        simp at h
        obtain ⟨rfl, rfl⟩ := h
        have h1 := regFields_idem reg fs fs' reg₂ reg₂ hr (RegSub.rfl reg₂)
        simp [RegisterInterfacesGo, h1]
    | iface tn2 val2 => simp [RegisterInterfacesGo] at h
    | fseq es => simp [RegisterInterfacesGo] at h
    | farr es => simp [RegisterInterfacesGo] at h
    | fmap es => simp [RegisterInterfacesGo] at h
    | ptr inner => simp [RegisterInterfacesGo] at h
    | other => simp [RegisterInterfacesGo] at h

/-- Witness for C9: a second run over the result of a first run reproduces
the same `Type` values and the same registry. -/
theorem register_interfaces_idempotent_witness :
    RegisterInterfacesGo [("pkg.T", ⟨"pkg.T", false⟩)]
        (some (.strukt [.iface "pkg.T" (some ⟨⟨"pkg.T", false⟩, DContent.data "x"⟩)]))
      = (some (.strukt [.iface "pkg.T" (some ⟨⟨"pkg.T", false⟩, DContent.data "x"⟩)]),
         [("pkg.T", ⟨"pkg.T", false⟩)], none) := by
  exact (register_interfaces_idempotent [] [("pkg.T", ⟨"pkg.T", false⟩)] "x" none
      (.strukt [.iface "" (some ⟨⟨"pkg.T", false⟩, DContent.data "x"⟩)])
      (.strukt [.iface "pkg.T" (some ⟨⟨"pkg.T", false⟩, DContent.data "x"⟩)])).2
    (by simp [RegisterInterfacesGo, regFields, regFld, regFldCore, regIfaceValue,
          Dyn.longName, registerNamed, regLookup])

end Config
